import Mathlib

/-
  Verification development for the cms-api-gadget library.

  The embedding covers the two core components of the repository:
  the Host Bridge (gadget.js: origin normalization, the pending-request
  registry keyed by callback id, the global message handler, environment
  bootstrap) and the API Client (cms-api.js: CmsApi.call with retry and
  exponential backoff, endpoint wrappers).

  JavaScript-specific behaviours are modelled explicitly:
  - string truthiness ("" and null/undefined are falsy),
  - the ?? and || defaulting operators,
  - template-literal stringification of undefined,
  - in-place mutation of caller objects (via an explicit heap),
  - JS objects as insertion-ordered key/value lists with assignment
    semantics (existing key updated in place, new key appended).
-/

set_option maxHeartbeats 1000000

/- ## Generic JS-semantics helpers -/

/-- Truthiness of a JS value that is either a string or null/undefined:
null, undefined and the empty string are falsy. -/
def jsTruthyOptStr : Option String → Bool
  | none => false
  | some s => !(s == "")

/-- The JS `||` defaulting idiom `value || dflt` for string-or-absent values. -/
def jsOr (v : Option String) (dflt : String) : String :=
  match v with
  | none => dflt
  | some s => if s = "" then dflt else s

/-- Template-literal stringification: `${undefined}` renders as "undefined". -/
def jsTemplate (v : Option String) : String :=
  match v with
  | none => "undefined"
  | some s => s

/-- First-some choice on options (used to state "later source wins"). -/
def firstSome (a b : Option String) : Option String :=
  match a with
  | some v => some v
  | none => b

/-- Check that one char list starts with another (needle, haystack). -/
def startsList : List Char → List Char → Bool
  | [], _ => true
  | _ :: _, [] => false
  | p :: ps, c :: cs => p == c && startsList ps cs

/-- Substring test on char lists: does the haystack contain the needle
as a contiguous run?  Models JS String.prototype.includes. -/
def hasSub (needle : List Char) : List Char → Bool
  | [] => startsList needle []
  | c :: cs => startsList needle (c :: cs) || hasSub needle cs

/-- JS `s.includes(sub)`. -/
def jsIncludes (s sub : String) : Bool := hasSub sub.data s.data

/- ## JS objects as insertion-ordered key/value lists -/

/-- A flat JS object (string keys, string values), in insertion order. -/
def JsObj := List (String × String)

instance : DecidableEq JsObj := by
  unfold JsObj
  infer_instance

/-- First-match lookup: JS property read. -/
def lookupO : JsObj → String → Option String
  | [], _ => none
  | (k, v) :: t, key => if k = key then some v else lookupO t key

/-- JS property assignment: update an existing key in place, else append. -/
def setKey : JsObj → String → String → JsObj
  | [], k, v => [(k, v)]
  | (k', v') :: t, k, v => if k' = k then (k, v) :: t else (k', v') :: setKey t k v

/-- Assign every own property of `obj` onto `m`, in insertion order.
Models both `gadget.set(obj)` and the per-key half of object spread. -/
def setObj (m : JsObj) (obj : JsObj) : JsObj :=
  match obj with
  | [] => m
  | (k, v) :: t => setObj (setKey m k v) t

/-- JS object spread `{...a, ...b}`: a fresh object, a's entries assigned
first, then b's (b wins on key collision). -/
def jsSpread (a b : JsObj) : JsObj := setObj (setObj [] a) b

/-- Keys of a JS object. -/
def objKeys (m : JsObj) : List String := m.map Prod.fst

/- ## Inbound message data (gadget.js parseMessageData) -/

/-- Payload values carried by messages; enough structure for the bridge,
which never inspects payloads except the get-environment sentinel. -/
inductive JsData where
  | strData (s : String)
  | objData (o : JsObj)
  | nullData
deriving DecidableEq

/-- A parsed wire message.  `callback` and `name` are absent (`none`) when
the corresponding JS field is undefined; empty strings are JS-falsy and
are treated accordingly at each use site. -/
structure WireMsg where
  callback : Option String
  name : Option String
  payload : JsData
deriving DecidableEq

/-- The raw `event.data` of a message event: either a structured-clone
value (passed through as-is; `none` stands for a falsy value such as
null) or a JSON string (`none` stands for a parse failure, which
parseMessageData logs and maps to null). -/
inductive RawMsg where
  | nonString (m : Option WireMsg)
  | jsonString (m : Option WireMsg)
deriving DecidableEq

/-- gadget.js parseMessageData: non-strings pass through, strings are
JSON-parsed with failures mapped to null (never thrown). -/
def parseMessageData : RawMsg → Option WireMsg
  | .nonString m => m
  | .jsonString m => m

/- ## Origin normalization (gadget.js normalizeOrigin) -/

/-- ASCII lowercasing of a single character. -/
def charLower (c : Char) : Char :=
  if 'A' ≤ c ∧ c ≤ 'Z' then Char.ofNat (c.toNat + 32) else c

/-- Case-insensitive starts-with against an all-lowercase pattern. -/
def lowerStarts : List Char → List Char → Bool
  | [], _ => true
  | _ :: _, [] => false
  | p :: ps, c :: cs => charLower c == p && lowerStarts ps cs

/-- The regex test /^https?:\/\//i of normalizeOrigin. -/
def isAbsHttp (l : List Char) : Bool :=
  lowerStarts "https://".data l || lowerStarts "http://".data l

/-- The regex test /^\/\// of normalizeOrigin (protocol-relative URL). -/
def isProtoRel (l : List Char) : Bool :=
  match l with
  | '/' :: '/' :: _ => true
  | _ => false

/-- One character of the bare host[:port] form: [a-z0-9.-], case-insensitive. -/
def bareHostChar (c : Char) : Bool :=
  ('a' ≤ charLower c && charLower c ≤ 'z') || ('0' ≤ c && c ≤ '9') || c == '.' || c == '-'

/-- Own takeWhile on char lists (kept local for easy induction). -/
def takeW (p : Char → Bool) : List Char → List Char
  | [] => []
  | c :: cs => if p c then c :: takeW p cs else []

/-- Own dropWhile on char lists. -/
def dropW (p : Char → Bool) : List Char → List Char
  | [] => []
  | c :: cs => if p c then dropW p cs else c :: cs

/-- JS whitespace for String.prototype.trim (ASCII subset of the model). -/
def wsChar (c : Char) : Bool :=
  c == ' ' || c == '\t' || c == '\n' || c == '\r'

/-- JS value.trim(), kernel-computable: strip leading and trailing
whitespace. -/
def jsTrim (s : String) : String :=
  String.mk (((dropW wsChar s.data).reverse |> dropW wsChar).reverse)

/-- Does the list contain the character? -/
def hasChar (ch : Char) : List Char → Bool
  | [] => false
  | c :: cs => c == ch || hasChar ch cs

/-- All characters satisfy the predicate. -/
def allChars (p : Char → Bool) : List Char → Bool
  | [] => true
  | c :: cs => p c && allChars p cs

/-- The regex test /^[a-z0-9.-]+(?::\d+)?$/i of normalizeOrigin:
a non-empty run of host characters, optionally followed by a colon and a
non-empty run of ASCII digits, consuming the whole string. -/
def isBareHost (l : List Char) : Bool :=
  let h := takeW bareHostChar l
  let rest := dropW bareHostChar l
  !(h == []) &&
    (match rest with
     | [] => true
     | ':' :: ds => !(ds == []) && allChars Char.isDigit ds
     | _ => false)

/-- Characters the model accepts inside a URL host: printable ASCII minus
the WHATWG forbidden host code points (and minus %, backslash and the
quote, which the model conservatively rejects; IPv6 bracket literals and
non-ASCII hosts are outside the model and parse to none). -/
def hostCharOk (c : Char) : Bool :=
  33 ≤ c.toNat && c.toNat ≤ 126 &&
    !(c == '#' || c == '/' || c == ':' || c == '<' || c == '>' || c == '?' ||
      c == '@' || c == '[' || c == ']' || c == '^' || c == '|' || c == '%' ||
      c == '\\' || c == '"')

/-- Numeric value of a digit run (used for URL port parsing). -/
def digitsValAux (acc : Nat) : List Char → Nat
  | [] => acc
  | c :: cs => digitsValAux (acc * 10 + (c.toNat - 48)) cs

def digitsVal (l : List Char) : Nat := digitsValAux 0 l

/-- The part of the authority after the last `@` (URL parsers take the
host from after the userinfo). -/
def afterLast (ch : Char) (l : List Char) : List Char :=
  (takeW (fun c => !(c == ch)) l.reverse).reverse

/-- Strip the userinfo from an authority component, if any. -/
def dropUserinfo (auth : List Char) : List Char :=
  if hasChar '@' auth then afterLast '@' auth else auth

/-- Default port of the two special schemes the source accepts. -/
def schemeDefaultPort (scheme : String) : Nat :=
  if scheme = "https" then 443 else 80

/-- Render `scheme://host[:port]` (the browser URL `origin` shape). -/
def renderO (scheme : String) (host : List Char) (port : Option Nat) : String :=
  scheme ++ "://" ++ String.mk host ++
    (match port with
     | none => ""
     | some n => ":" ++ toString n)

/- ### WHATWG IPv4 host rule
A host whose last dot-separated label is numeric must parse as a valid
IPv4 address (decimal, 0x-hex or 0-octal labels, at most four, with the
documented bounds) or the URL constructor throws; a valid one is
serialized in dotted-decimal form. -/

/-- Split a char list on every dot (keeping empty segments). -/
def splitDots : List Char → List (List Char)
  | [] => [[]]
  | '.' :: t => [] :: splitDots t
  | c :: t =>
    match splitDots t with
    | [] => [[c]]
    | p :: ps => (c :: p) :: ps

/-- Value of a hex digit, or 16 for any other character. -/
def charHexVal (c : Char) : Nat :=
  if '0' ≤ c ∧ c ≤ '9' then c.toNat - 48
  else if 'a' ≤ c ∧ c ≤ 'f' then c.toNat - 87
  else if 'A' ≤ c ∧ c ≤ 'F' then c.toNat - 55
  else 16

/-- Parse a digit run in the given radix; any out-of-radix character is
a failure. -/
def parseRadixAux (r : Nat) (acc : Nat) : List Char → Option Nat
  | [] => some acc
  | c :: t => if charHexVal c < r then parseRadixAux r (acc * r + charHexVal c) t else none

/-- The WHATWG IPv4 number parser: empty is a failure; a 0x/0X prefix
selects hex (empty remainder meaning 0); a remaining leading zero on a
multi-character label selects octal; otherwise decimal. -/
def ipv4NumParse (l : List Char) : Option Nat :=
  if l = [] then none
  else if startsList ['0', 'x'] l || startsList ['0', 'X'] l then
    (if l.drop 2 = [] then some 0 else parseRadixAux 16 0 (l.drop 2))
  else
    match l with
    | '0' :: c2 :: rest2 => parseRadixAux 8 0 (c2 :: rest2)
    | _ => parseRadixAux 10 0 l

/-- The WHATWG ends-in-a-number check: after discarding one trailing
empty label, the last label is all ASCII digits or parses as an IPv4
number. -/
def endsInANumber (l : List Char) : Bool :=
  match (splitDots l).getLast? with
  | none => false
  | some lastp =>
    match (if lastp = [] then (splitDots l).dropLast else splitDots l).getLast? with
    | none => false
    | some last2 =>
      (!(last2 == []) && allChars Char.isDigit last2) || (ipv4NumParse last2).isSome

/-- Parse every label as an IPv4 number. -/
def ipv4Nums : List (List Char) → Option (List Nat)
  | [] => some []
  | p :: ps =>
    match ipv4NumParse p, ipv4Nums ps with
    | some n, some ns => some (n :: ns)
    | _, _ => none

/-- Combine the parsed labels: each label but the last supplies the next
octet from the top, the last supplies the remaining low bytes. -/
def ipv4Sum : Nat → List Nat → Nat
  | _, [] => 0
  | _, [n] => n
  | i, n :: m :: t => n * 256 ^ (3 - i) + ipv4Sum (i + 1) (m :: t)

/-- The WHATWG IPv4 parser: discard one trailing empty label, refuse
more than four labels, parse each as an IPv4 number, refuse any
non-final label above 255 and a final label reaching 256^(5 - size). -/
def ipv4Parse (l : List Char) : Option Nat :=
  let parts := splitDots l
  let parts2 :=
    match parts.getLast? with
    | some [] => if parts.length > 1 then parts.dropLast else parts
    | _ => parts
  if parts2.length > 4 then none
  else
    match ipv4Nums parts2 with
    | none => none
    | some ns =>
      match ns.getLast? with
      | none => none
      | some lastN =>
        if ns.dropLast.any (fun n => 255 < n) then none
        else if 256 ^ (5 - ns.length) ≤ lastN then none
        else some (ipv4Sum 0 ns)

/-- Decimal digit character. -/
def decDigit (d : Nat) : Char := Char.ofNat (48 + d)

/-- Decimal rendering of one octet (value at most 255). -/
def octetChars (n : Nat) : List Char :=
  if n < 10 then [decDigit n]
  else if n < 100 then [decDigit (n / 10), decDigit (n % 10)]
  else [decDigit (n / 100), decDigit (n / 10 % 10), decDigit (n % 10)]

/-- Dotted-decimal serialization of an IPv4 address. -/
def renderIPv4 (n : Nat) : List Char :=
  octetChars (n / 16777216 % 256) ++ '.' :: octetChars (n / 65536 % 256) ++
    '.' :: octetChars (n / 256 % 256) ++ '.' :: octetChars (n % 256)

/-- Apply the IPv4 host rule: a host ending in a number must IPv4-parse
(else the URL constructor throws) and is replaced by its dotted-decimal
serialization; any other host is kept as-is. -/
def hostIPv4 (host : List Char) : Option (List Char) :=
  if endsInANumber host then (ipv4Parse host).map renderIPv4 else some host

/-- Model of `new URL(scheme://rest).origin` for http(s) URLs.
The authority runs to the first of / ? #; the host is the part of the
authority after the last @ and before the first colon, ASCII-lowercased,
validated against hostCharOk and subjected to the WHATWG IPv4 host rule;
the port must be a digit run with value at most 65535 and is omitted
when empty or equal to the scheme default.  Any failed validation models
the URL constructor throwing (null). -/
def parseOriginTail (scheme : String) (host portPart : List Char) : Option String :=
  if host == [] then none
  else if !(allChars hostCharOk host) then none
  else
    match hostIPv4 host with
    | none => none
    | some host2 =>
      match portPart with
      | [] => some (renderO scheme host2 none)
      | _ :: ds =>
        if ds == [] then some (renderO scheme host2 none)
        else if !(allChars Char.isDigit ds) then none
        else if 65535 < digitsVal ds then none
        else if digitsVal ds = schemeDefaultPort scheme then some (renderO scheme host2 none)
        else some (renderO scheme host2 (some (digitsVal ds)))

def parseOriginCore (scheme : String) (rest : List Char) : Option String :=
  let auth := takeW (fun c => !(c == '/' || c == '?' || c == '#')) rest
  let hp := dropUserinfo auth
  parseOriginTail scheme ((takeW (fun c => !(c == ':')) hp).map charLower)
    (dropW (fun c => !(c == ':')) hp)

/-- Model of `new URL(s).origin` restricted to http(s) inputs (the only
inputs the source ever feeds it, given an http(s) page protocol). -/
def urlOrigin (l : List Char) : Option String :=
  if lowerStarts "https://".data l then parseOriginCore "https" (l.drop 8)
  else if lowerStarts "http://".data l then parseOriginCore "http" (l.drop 7)
  else none

/-- gadget.js normalizeOrigin: trim, refuse empty and the wildcard "*",
then dispatch on the three accepted syntactic forms (absolute http(s)
URL, protocol-relative URL, bare host[:port]), handing each to the URL
origin model; anything else is rejected.  `pageProto` is the page
protocol used for the protocol-relative and bare-host forms; `none`
input models a non-string config value. -/
def normalizeTrimmed (pageProto : String) (v : String) : Option String :=
  if v = "" then none
  else if v = "*" then none
  else if isAbsHttp v.data then urlOrigin v.data
  else if isProtoRel v.data then urlOrigin (pageProto ++ v).data
  else if isBareHost v.data then urlOrigin (pageProto ++ "//" ++ v).data
  else none

def normalizeOrigin (pageProto : String) (value : Option String) : Option String :=
  match value with
  | none => none
  | some str => normalizeTrimmed pageProto (jsTrim str)

/-- Did the (trimmed) input match one of the three accepted forms? -/
def acceptedForm (v : String) : Bool :=
  isAbsHttp (jsTrim v).data || isProtoRel (jsTrim v).data || isBareHost (jsTrim v).data

/-- The strict `scheme://host[:port]` origin shape with no path, query or
fragment (the property the spec asserts of every normalized origin). -/
def StrictOriginStr (o : String) : Prop :=
  ∃ scheme host port,
    (scheme = "http" ∨ scheme = "https") ∧
    host ≠ "" ∧
    (∀ c ∈ host.data, c ≠ '/' ∧ c ≠ '?' ∧ c ≠ '#' ∧ c ≠ ':' ∧ c ≠ '@') ∧
    o = scheme ++ "://" ++ host ++
      (match (port : Option Nat) with
       | none => ""
       | some n => ":" ++ toString n)

/- ## The pending-request registry and the bridge state (gadget.js) -/

/-- One entry of the pendingRequests map: the identity of its jQuery
Deferred (a fresh index allocated at send time) and whether its timeout
timer is currently armed. -/
structure PendEntry where
  dix : Nat
  timerArmed : Bool
deriving DecidableEq

/-- Association-list find (Map.get). -/
def regFind : List (String × PendEntry) → String → Option PendEntry
  | [], _ => none
  | (k, e) :: t, c => if k = c then some e else regFind t c

/-- Association-list removal (Map.delete). -/
def regRemove : List (String × PendEntry) → String → List (String × PendEntry)
  | [], _ => []
  | (k, e) :: t, c => if k = c then regRemove t c else (k, e) :: regRemove t c

/-- Bump a Nat-valued counter function at one point. -/
def bumpF (f : Nat → Nat) (d : Nat) : Nat → Nat :=
  fun x => if x = d then f x + 1 else f x

/-- The bridge's mutable state: the normalized trusted origin, the
pendingRequests registry, the next fresh Deferred index, and per-Deferred
counters of how many times resolve and reject have been called (the
counters express the single-settlement property without relying on the
Deferred's own latch). -/
structure BridgeState where
  msghostOrigin : Option String
  registry : List (String × PendEntry)
  nextDix : Nat
  resolves : Nat → Nat
  rejects : Nat → Nat

/-- gadget.js clearPending: look up the entry; if absent do nothing,
otherwise cancel its timer and delete it.  Deleting the entry is what
cancels the timer in the model (an entry's timer is armed iff the entry
is present with timerArmed). -/
def clearPending (s : BridgeState) (cid : String) : BridgeState :=
  match regFind s.registry cid with
  | none => s
  | some _ => { s with registry := regRemove s.registry cid }

/-- gadget.js isTrustedEvent: the event must be truthy, its source the top
window, its origin a string exactly equal to the normalized trusted
origin (a comparison against a null msghostOrigin is always false). -/
structure MessageEvent where
  present : Bool
  sourceIsTop : Bool
  originIsString : Bool
  origin : String
  data : RawMsg
deriving DecidableEq

def isTrustedEvent (s : BridgeState) (ev : MessageEvent) : Bool :=
  ev.present && ev.sourceIsTop && ev.originIsString &&
    (match s.msghostOrigin with
     | none => false
     | some o => ev.origin == o)

/-- gadget.js messageHandler: drop untrusted events; parse; a message with
a truthy callback id resolves (and clears) the matching pending request,
and is silently ignored when no entry matches; a message with no callback
and a truthy string name is dispatched as a broadcast.  Returns the new
state and the list of dispatched broadcasts. -/
def messageHandler (s : BridgeState) (ev : MessageEvent) :
    BridgeState × List (String × JsData) :=
  if isTrustedEvent s ev then
    match parseMessageData ev.data with
    | none => (s, [])
    | some m =>
      if jsTruthyOptStr m.callback then
        match regFind s.registry (m.callback.getD "") with
        | none => (s, [])
        | some e =>
          let s1 := clearPending s (m.callback.getD "")
          ({ s1 with resolves := bumpF s1.resolves e.dix }, [])
      else
        match m.name with
        | none => (s, [])
        | some n => if n = "" then (s, []) else (s, [(n, m.payload)])
  else (s, [])

/- ## sendMessageToTop (gadget.js) -/

/-- The gadget identity fields copied into every outgoing envelope. -/
structure GadgetMeta where
  gid : Option String
  url : Option String
  token : Option String
  place : Option String
deriving DecidableEq

/-- The outgoing wire envelope of sendMessageToTop. -/
structure Envelope where
  name : String
  gid : Option String
  origin : Option String
  token : Option String
  place : Option String
  payload : JsData
  callback : String
deriving DecidableEq

/-- The structured error object of the missing-msghost fast-fail path. -/
structure RejectErr where
  code : String
  message : String
  name : String
deriving DecidableEq

/-- Result of one sendMessageToTop call: the updated bridge state, the
postMessage calls performed (serialized envelope with its explicit
targetOrigin), and the immediate rejection, if any. -/
structure SendOut where
  state : BridgeState
  posts : List (Envelope × String)
  immediateError : Option RejectErr

/-- gadget.js sendMessageToTop.  With no usable msghostOrigin the returned
Deferred is rejected at once with code missing_msghost and nothing is
posted.  Otherwise a fresh Deferred index is allocated, the pending entry
is registered before posting (timer armed iff the timeout is finite and
positive), and the envelope is posted to the top window with the
normalized origin as explicit target; a postMessage throw (postOk =
false) cleans the entry up again and rejects.  A callback-id collision
with an outstanding request cannot occur (ids are unique among
outstanding requests) and is modelled as a non-event. -/
def sendMessageToTop (s : BridgeState) (meta : GadgetMeta) (name : String)
    (payload : JsData) (cid : String) (finiteTimeout postOk : Bool) : SendOut :=
  if jsTruthyOptStr s.msghostOrigin then
    match regFind s.registry cid with
    | some _ => { state := s, posts := [], immediateError := none }
    | none =>
      let env : Envelope :=
        { name := name, gid := meta.gid, origin := meta.url, token := meta.token,
          place := meta.place, payload := payload, callback := cid }
      let target := s.msghostOrigin.getD ""
      let s1 : BridgeState :=
        { s with registry := (cid, ⟨s.nextDix, finiteTimeout⟩) :: s.registry,
                 nextDix := s.nextDix + 1 }
      if postOk then
        { state := s1, posts := [(env, target)], immediateError := none }
      else
        let s2 := clearPending s1 cid
        { state := { s2 with rejects := bumpF s2.rejects s.nextDix },
          posts := [(env, target)], immediateError := none }
  else
    { state := { s with rejects := bumpF s.rejects s.nextDix, nextDix := s.nextDix + 1 },
      posts := [],
      immediateError := some
        { code := "missing_msghost",
          message := "gadget.msghost is not set (or not a valid origin); cannot postMessage() safely.",
          name := name } }

/- ## Bridge event traces -/

/-- The events that touch the pending-request registry: a send, the firing
of an armed timeout timer, and an inbound window message. -/
inductive BEvent where
  | send (meta : GadgetMeta) (name : String) (payload : JsData) (cid : String)
      (finiteTimeout postOk : Bool)
  | timerFire (cid : String)
  | inbound (ev : MessageEvent)

/-- One-step semantics.  A timer can only fire while its entry is present
with the timer armed (clearPending cancels the timer when it deletes the
entry); the timeout callback then runs clearPending and rejects the
request's Deferred. -/
def stepB (s : BridgeState) : BEvent → BridgeState
  | .send meta name payload cid ft pk =>
    (sendMessageToTop s meta name payload cid ft pk).state
  | .timerFire cid =>
    match regFind s.registry cid with
    | none => s
    | some e =>
      if e.timerArmed then
        let s1 := clearPending s cid
        { s1 with rejects := bumpF s1.rejects e.dix }
      else s
  | .inbound ev => (messageHandler s ev).1

def runB (s : BridgeState) : List BEvent → BridgeState
  | [] => s
  | e :: t => runB (stepB s e) t

/-- The bridge state at page load: no pending requests, no settlements. -/
def initB (mo : Option String) : BridgeState :=
  { msghostOrigin := mo, registry := [], nextDix := 0,
    resolves := fun _ => 0, rejects := fun _ => 0 }

/-- Times the Deferred with index d has been settled (resolved+rejected). -/
def settledCount (s : BridgeState) (d : Nat) : Nat := s.resolves d + s.rejects d

/- ## Environment bootstrap (gadget.js collectData / init) -/

/-- The host's reply to get-environment, as seen by the bridge: the
"Unrecognized message." sentinel, a proper environment object, or a
nullish value. -/
inductive EnvPayload where
  | sentinel
  | envObj (o : JsObj)
  | nullish
deriving DecidableEq

/-- A structured channel error (timeout / missing_msghost / throw). -/
structure ChanErr where
  code : String
deriving DecidableEq

/-- gadget.js getEnvironment: forward sendMessageToTop's settlement and
map the "Unrecognized message." sentinel to null instead of an error. -/
def getEnvironmentModel : Except ChanErr EnvPayload → Except ChanErr (Option JsObj)
  | .error e => .error e
  | .ok .sentinel => .ok none
  | .ok .nullish => .ok none
  | .ok (.envObj o) => .ok (some o)

/-- gadget.js collectData: apply the URL-derived data to the gadget
environment, then ask the host for its environment; on success apply it
over the URL data (skip when null) and resolve with the spread
`{...urlData, ...data}`; on failure propagate the rejection.  Returns the
Deferred outcome and the resulting gadget environment. -/
def collectDataModel (env0 urlData : JsObj) (hostResp : Except ChanErr (Option JsObj)) :
    Except ChanErr JsObj × JsObj :=
  let env1 := setObj env0 urlData
  match hostResp with
  | .error e => (.error e, env1)
  | .ok none => (.ok (jsSpread urlData []), env1)
  | .ok (some d) => (.ok (jsSpread urlData d), setObj env1 d)

/-- The observable outcome of the init sequence: the process-wide ready
flag and how many ready broadcasts were emitted. -/
structure InitState where
  isReady : Bool
  readyFires : Nat
deriving DecidableEq

/-- gadget.js init: collectData().then(... isReady = true; trigger
"ready").fail(... isReady = true; trigger "ready") — exactly one of the
two handlers runs, on whichever way the collectData Deferred settles. -/
def initModel (env0 urlData : JsObj) (hostResp : Except ChanErr EnvPayload) :
    InitState × JsObj :=
  let r := collectDataModel env0 urlData (getEnvironmentModel hostResp)
  match r.1 with
  | .ok _ => ({ isReady := true, readyFires := 1 }, r.2)
  | .error _ => ({ isReady := true, readyFires := 1 }, r.2)

/-- gadget.ready(cb): resolves immediately iff the ready flag is set
(otherwise it waits for the single future ready broadcast). -/
def readyResolvesNow (st : InitState) : Bool := st.isReady

/- ## CmsApi (cms-api.js) -/

/-- The gadget environment fields the API client reads.  `none` models an
absent (undefined) field. -/
structure GadgetEnvA where
  name : Option String
  gid : Option String
  site : Option String
  apihost : Option String
  account : Option String
  skin : Option String
  hostbase : Option String
  user : Option String
  token : Option String
deriving DecidableEq

/-- The fields the CmsApi constructor stores on the instance. -/
structure CmsApiObj where
  name : String
  site : String
  apihost : String
  account : String
  skin : String
  hostbase : String
  user : String
deriving DecidableEq

/-- cms-api.js constructor: every field defaults via `||`. -/
def CmsApi.construct (g : GadgetEnvA) : CmsApiObj :=
  let name := jsOr g.name (jsOr g.gid "")
  let site := jsOr g.site ""
  let apihost := jsOr g.apihost "https://a.cms.omniupdate.com"
  let account := jsOr g.account "missouristate"
  let skin := jsOr g.skin "oucampus"
  let hostbase := jsOr g.hostbase ("/11/#" ++ skin ++ "/" ++ account ++ "/" ++ site)
  let user := jsOr g.user "unknown user"
  { name := name, site := site, apihost := apihost, account := account,
    skin := skin, hostbase := hostbase, user := user }

/-- The URL cms-api.js call() actually requests:
`${gadget.apihost}${config.endpoint}` — note it reads the live gadget
environment, not the constructed this.apihost. -/
def requestUrl (g : GadgetEnvA) (endpoint : String) : String :=
  jsTemplate g.apihost ++ endpoint

/-- The JSON error body of a failed attempt; `code` is `none` when the
field is absent or not a string. -/
structure RespJson where
  code : Option String
  errMsg : Option String
deriving DecidableEq

/-- The arguments of the jQuery fail callback: jqXHR.responseJSON (absent
on network-level failures), the status string, and the error message. -/
structure FailInfo where
  response : Option RespJson
  status : String
  errorText : String
deriving DecidableEq

/-- Outcome of one HTTP attempt. -/
inductive Attempt where
  | success (payload : String)
  | failure (f : FailInfo)
deriving DecidableEq

/-- Settlement of the promise returned by call(). -/
inductive CallResult where
  | resolved (payload : String)
  | rejected (f : FailInfo)
deriving DecidableEq

/-- The observable trace of one call(): the settlement, the number of
HTTP attempts performed, the backoff delays scheduled between attempts
(in order), and how many times the SESSION_NOT_FOUND UI-blanking
fallback fired. -/
structure RunResult where
  result : CallResult
  attempts : Nat
  delays : List Nat
  blanks : Nat
deriving DecidableEq

/-- cms-api.js: `let retryCodes = ['TIMEOUT']`. -/
def retryCodes : List String := ["TIMEOUT"]

/-- cms-api.js retriability: no response JSON is never retriable;
otherwise some configured token must occur as a substring of the
(string) error code. -/
def isRetriable (resp : Option RespJson) : Bool :=
  match resp with
  | none => false
  | some r =>
    retryCodes.any (fun token =>
      match r.code with
      | some c => jsIncludes c token
      | none => false)

/-- Does this failure fire the SESSION_NOT_FOUND page-blanking fallback? -/
def blanksOf (resp : Option RespJson) : Nat :=
  match resp with
  | none => 0
  | some r => if r.code = some "SESSION_NOT_FOUND" then 1 else 0

/-- cms-api.js backoff: `min(delay * 2^attempt + jitter, 15000)` where the
jitter of each draw is `Math.floor(Math.random() * 250)`, modelled by the
function `jit` (each value in [0, 250)). -/
def backoff (delay : Nat) (jit : Nat → Nat) (attempt : Nat) : Nat :=
  min (delay * 2 ^ attempt + jit attempt) 15000

/-- cms-api.js ring(count): run one attempt; on a retriable failure with
count < retries, schedule another attempt after backoff(count); otherwise
settle.  `budget` is `retries - count` (so `count < retries` is exactly
`budget > 0`), which makes the recursion structural. -/
def ring (outcomes : Nat → Attempt) (delay : Nat) (jit : Nat → Nat)
    (count : Nat) (budget : Nat) : RunResult :=
  match outcomes count with
    | .success p => { result := .resolved p, attempts := 1, delays := [], blanks := 0 }
    | .failure f =>
      if isRetriable f.response then
        match budget with
        | 0 =>
          { result := .rejected f, attempts := 1, delays := [],
            blanks := blanksOf f.response }
        | Nat.succ b =>
          let rest := ring outcomes delay jit (count + 1) b
          { result := rest.result, attempts := rest.attempts + 1,
            delays := backoff delay jit count :: rest.delays,
            blanks := blanksOf f.response + rest.blanks }
      else
        { result := .rejected f, attempts := 1, delays := [],
          blanks := blanksOf f.response }

/-- cms-api.js call(config): ring(0) with the full retry budget.
`retries` and `delay` are config.retries ?? 3 and config.delay ?? 1000. -/
def callModel (retries delay : Nat) (jit : Nat → Nat) (outcomes : Nat → Attempt) :
    RunResult :=
  ring outcomes delay jit 0 retries

/-- Attempt n fails with a retriable error code. -/
def retriableFailAt (outcomes : Nat → Attempt) (n : Nat) : Prop :=
  ∃ f, outcomes n = Attempt.failure f ∧ isRetriable f.response = true

/- ## Heap model for in-place config mutation (cms-api.js endpoints) -/

/-- A heap of JS objects addressed by reference. -/
def Heap := List JsObj

instance : DecidableEq Heap := by
  unfold Heap
  infer_instance

def hGet : Heap → Nat → JsObj
  | [], _ => []
  | o :: _, 0 => o
  | _ :: t, n + 1 => hGet t n

def hSet : Heap → Nat → JsObj → Heap
  | [], _, _ => []
  | _ :: t, 0, o => o :: t
  | x :: t, n + 1, o => x :: hSet t n o

/-- Write one property through a reference. -/
def hWrite (h : Heap) (r : Nat) (k v : String) : Heap :=
  hSet h r (setKey (hGet h r) k v)

/-- The mutation call() performs on the caller's parameter object:
`config.data = config.data || {}` (the endpoint wrappers always pass an
object, so the reference is unchanged) and then
`config.data.authorization_token = gadget.token`. -/
def callMutate (tok : String) (h : Heap) (r : Nat) : Heap :=
  hWrite h r "authorization_token" tok

/-- cms-api.js assets_list: `if (!config.site) config.site = this.site`,
then get('/assets/list', config), whose call() writes the token through
the same reference.  Returns the final heap. -/
def assetsListMutate (selfSite tok : String) (h : Heap) (r : Nat) : Heap :=
  let h1 :=
    if jsTruthyOptStr (lookupO (hGet h r) "site") then h
    else hWrite h r "site" selfSite
  callMutate tok h1 r

/-- Concrete environment with an absent apihost field (used by C7). -/
def envNoApihost : GadgetEnvA :=
  { name := none, gid := none, site := some "www", apihost := none,
    account := none, skin := none, hostbase := none, user := none,
    token := some "tok" }

/-- Concrete environment with an explicit apihost (used by C7). -/
def envWithApihost : GadgetEnvA :=
  { name := none, gid := none, site := some "www", apihost := some "https://alt.example",
    account := none, skin := none, hostbase := none, user := none,
    token := some "tok" }

/-- The bridge safety invariant: every Deferred settles at most once;
Deferred indices not yet allocated are unsettled; every registered
pending request has an unsettled Deferred with an allocated index; and
distinct registry entries own distinct Deferreds. -/
def BridgeInv (s : BridgeState) : Prop :=
  (∀ d, settledCount s d ≤ 1)
  ∧ (∀ d, s.nextDix ≤ d → settledCount s d = 0)
  ∧ (∀ c e, regFind s.registry c = some e →
      settledCount s e.dix = 0 ∧ e.dix < s.nextDix)
  ∧ (∀ c c' e e', regFind s.registry c = some e → regFind s.registry c' = some e' →
      e.dix = e'.dix → c = c')

/-- Concrete one-send trace used to exercise the bridge theorems: a
single get-location request with callback id "a" and an armed timer. -/
def demoTraceC1 : List BEvent :=
  [BEvent.send { gid := none, url := none, token := none, place := none }
    "get-location" JsData.nullData "a" true true]

/-- A trusted, well-formed response event carrying the unknown callback
id "b". -/
def demoEventC1 : MessageEvent :=
  { present := true, sourceIsTop := true, originIsString := true,
    origin := "https://host.example",
    data := RawMsg.jsonString
      (some { callback := some "b", name := none, payload := JsData.nullData }) }

/- # Theorems -/

/- ## Substring-containment characterization -/

theorem startsList_iff (n : List Char) : ∀ h : List Char,
    startsList n h = true ↔ ∃ q, h = n ++ q := by
  induction n with
  | nil => intro h; simp [startsList]
  | cons p ps ih =>
    intro h
    cases h with
    | nil =>
      simp [startsList]
    | cons c cs =>
      simp only [startsList, Bool.and_eq_true, beq_iff_eq, ih, List.cons_append,
        List.cons.injEq]
      constructor
      · rintro ⟨rfl, q, rfl⟩
        exact ⟨q, rfl, rfl⟩
      · rintro ⟨q, rfl, rfl⟩
        exact ⟨rfl, q, rfl⟩

theorem hasSub_iff (n : List Char) : ∀ h : List Char,
    hasSub n h = true ↔ ∃ p q, h = p ++ (n ++ q) := by
  intro h
  induction h with
  | nil =>
    simp only [hasSub, startsList_iff]
    constructor
    · rintro ⟨q, hq⟩
      exact ⟨[], q, hq⟩
    · rintro ⟨p, q, hq⟩
      rw [List.nil_eq, List.append_eq_nil, List.append_eq_nil] at hq
      exact ⟨[], by simp [hq.1, hq.2.1, hq.2.2]⟩
  | cons c cs ih =>
    simp only [hasSub, Bool.or_eq_true, startsList_iff, ih]
    constructor
    · rintro (⟨q, hq⟩ | ⟨p, q, hq⟩)
      · exact ⟨[], q, by simp [hq]⟩
      · exact ⟨c :: p, q, by simp [hq]⟩
    · rintro ⟨p, q, hq⟩
      cases p with
      | nil => exact Or.inl ⟨q, by simpa using hq⟩
      | cons x xs =>
        rw [List.cons_append] at hq
        injection hq with h1 h2
        exact Or.inr ⟨xs, q, h2⟩

/- ## call(): one-step unfoldings of ring -/

theorem ring_success (outcomes : Nat → Attempt) (delay : Nat) (jit : Nat → Nat)
    (count budget : Nat) (p : String) (h : outcomes count = Attempt.success p) :
    ring outcomes delay jit count budget =
      { result := CallResult.resolved p, attempts := 1, delays := [], blanks := 0 } := by
  rw [ring.eq_def, h]

theorem ring_fail_noretry (outcomes : Nat → Attempt) (delay : Nat) (jit : Nat → Nat)
    (count budget : Nat) (f : FailInfo) (h : outcomes count = Attempt.failure f)
    (hr : isRetriable f.response = false) :
    ring outcomes delay jit count budget =
      { result := CallResult.rejected f, attempts := 1, delays := [],
        blanks := blanksOf f.response } := by
  rw [ring.eq_def, h]
  simp [hr]

theorem ring_fail_retry_exhausted (outcomes : Nat → Attempt) (delay : Nat)
    (jit : Nat → Nat) (count : Nat) (f : FailInfo)
    (h : outcomes count = Attempt.failure f) (hr : isRetriable f.response = true) :
    ring outcomes delay jit count 0 =
      { result := CallResult.rejected f, attempts := 1, delays := [],
        blanks := blanksOf f.response } := by
  rw [ring.eq_def, h]
  simp [hr]

theorem ring_fail_retry_step (outcomes : Nat → Attempt) (delay : Nat)
    (jit : Nat → Nat) (count b : Nat) (f : FailInfo)
    (h : outcomes count = Attempt.failure f) (hr : isRetriable f.response = true) :
    ring outcomes delay jit count (b + 1) =
      { result := (ring outcomes delay jit (count + 1) b).result,
        attempts := (ring outcomes delay jit (count + 1) b).attempts + 1,
        delays := backoff delay jit count :: (ring outcomes delay jit (count + 1) b).delays,
        blanks := blanksOf f.response + (ring outcomes delay jit (count + 1) b).blanks } := by
  rw [ring.eq_def, h]
  simp [hr]

/- ## call(): exhaustive retriable failures -/

theorem ring_all_retriable (outcomes : Nat → Attempt) (delay : Nat) (jit : Nat → Nat) :
    ∀ budget count,
      (∀ n, count ≤ n → n ≤ count + budget → retriableFailAt outcomes n) →
      (ring outcomes delay jit count budget).attempts = budget + 1
      ∧ (ring outcomes delay jit count budget).delays
          = (List.range' count budget).map (fun a => backoff delay jit a)
      ∧ ∃ f, outcomes (count + budget) = Attempt.failure f
          ∧ (ring outcomes delay jit count budget).result = CallResult.rejected f := by
  intro budget
  induction budget with
  | zero =>
    intro count h
    obtain ⟨f, hf, hr⟩ := h count le_rfl (by omega)
    rw [ring_fail_retry_exhausted outcomes delay jit count f hf hr]
    exact ⟨rfl, rfl, f, by simpa using hf, rfl⟩
  | succ b ih =>
    intro count h
    obtain ⟨f, hf, hr⟩ := h count le_rfl (by omega)
    obtain ⟨ih1, ih2, g, hg, hres⟩ :=
      ih (count + 1) (fun n h1 h2 => h n (by omega) (by omega))
    rw [ring_fail_retry_step outcomes delay jit count b f hf hr]
    refine ⟨by simpa using ih1, ?_, g, ?_, by simpa using hres⟩
    · rw [List.range'_succ, List.map_cons]
      simpa using ih2
    · have hcb : count + (b + 1) = count + 1 + b := by omega
      rw [hcb]
      exact hg

/- ## Non-decreasing chains of mapped ranges -/

theorem chainLe_map_range' (f : Nat → Nat) (hf : ∀ a, f a ≤ f (a + 1)) :
    ∀ n s, List.Chain' (fun a b => a ≤ b) ((List.range' s n).map f) := by
  intro n
  induction n with
  | zero => intro s; simp
  | succ m ih =>
    intro s
    rw [List.range'_succ, List.map_cons]
    refine List.chain'_cons'.mpr ⟨?_, ih (s + 1)⟩
    intro b hb
    cases m with
    | zero => simp at hb
    | succ k =>
      rw [List.range'_succ, List.map_cons] at hb
      simp only [List.head?_cons, Option.mem_def, Option.some.injEq] at hb
      rw [← hb]
      exact hf s

/-- C4: a call() failure is retried only when the server-reported error
code contains (as a substring) one of the configured retriable tokens
(retryCodes, by default only "TIMEOUT"); a call failing with a
non-retriable code performs exactly one HTTP attempt and rejects, and a
call failing on every attempt with a retriable code performs exactly
retries + 1 attempts before rejecting with the final failure. -/
theorem call_retry_policy :
    (∀ retries delay jit outcomes f,
        outcomes 0 = Attempt.failure f →
        isRetriable f.response = false →
        callModel retries delay jit outcomes =
          { result := CallResult.rejected f, attempts := 1, delays := [],
            blanks := blanksOf f.response })
    ∧ (∀ retries delay jit outcomes,
        (∀ n, n ≤ retries → retriableFailAt outcomes n) →
        (callModel retries delay jit outcomes).attempts = retries + 1
        ∧ ∃ f, outcomes retries = Attempt.failure f
            ∧ (callModel retries delay jit outcomes).result = CallResult.rejected f)
    ∧ (∀ resp, isRetriable resp = true ↔
        ∃ r c, resp = some r ∧ r.code = some c ∧
          ∃ t, t ∈ retryCodes ∧ ∃ p q, c.data = p ++ (t.data ++ q)) := by
  refine ⟨?_, ?_, ?_⟩
  · intro retries delay jit outcomes f h hr
    exact ring_fail_noretry outcomes delay jit 0 retries f h hr
  · intro retries delay jit outcomes h
    obtain ⟨h1, _, g, hg, hres⟩ :=
      ring_all_retriable outcomes delay jit retries 0 (fun n hn1 hn2 => h n (by omega))
    refine ⟨h1, g, by simpa using hg, hres⟩
  · intro resp
    cases resp with
    | none => simp [isRetriable]
    | some r =>
      cases hc : r.code with
      | none => simp [isRetriable, retryCodes, hc]
      | some c =>
        simp only [isRetriable, retryCodes, List.any_cons, List.any_nil, hc,
          Bool.or_false, jsIncludes, hasSub_iff, Option.some.injEq,
          List.mem_singleton]
        constructor
        · rintro ⟨p, q, hpq⟩
          exact ⟨r, c, rfl, hc, "TIMEOUT", rfl, p, q, hpq⟩
        · rintro ⟨r', c', hr', hc', t, ht, p, q, hpq⟩
          subst ht
          subst hr'
          rw [hc] at hc'
          injection hc' with hcc
          subst hcc
          exact ⟨p, q, by simpa using hpq⟩

/-- C4 witness: a concrete non-retriable failure performs exactly one
attempt, and a concrete always-retriable failure with retries = 2
performs exactly 3 attempts. -/
theorem call_retry_policy_witness :
    callModel 3 1000 (fun _ => 0)
        (fun _ => Attempt.failure
          { response := some { code := some "PERMISSION_DENIED", errMsg := none },
            status := "error", errorText := "denied" })
      = { result := CallResult.rejected
            { response := some { code := some "PERMISSION_DENIED", errMsg := none },
              status := "error", errorText := "denied" },
          attempts := 1, delays := [], blanks := 0 }
    ∧ (callModel 2 1000 (fun _ => 0)
        (fun _ => Attempt.failure
          { response := some { code := some "TIMEOUT", errMsg := none },
            status := "error", errorText := "t" })).attempts = 2 + 1 := by
  constructor
  · exact call_retry_policy.1 3 1000 (fun _ => 0) _ _ rfl (by decide)
  · exact (call_retry_policy.2.1 2 1000 (fun _ => 0) _
      (fun n _ => ⟨_, rfl, by decide⟩)).1

/-- C5 (amended): every delay scheduled by call() before attempt
attempt+1 equals min(baseDelay * 2^attempt + jitter, 15000) with the
jitter draw in [0, 250) and attempt numbering starting at 0, and every
scheduled delay is capped at 15000 ms; the sequence of inter-attempt
delays is non-decreasing whenever baseDelay is at least 250 ms (in
particular at the default 1000 ms) — for smaller baseDelay the jitter
can make consecutive delays decrease, so the unconditional monotonicity
of the original claim fails (see the counterexample). -/
theorem call_backoff_formula :
    ∀ retries delay jit outcomes,
      (∀ n, jit n < 250) →
      (∀ n, n ≤ retries → retriableFailAt outcomes n) →
      (callModel retries delay jit outcomes).delays
          = (List.range retries).map (fun a => min (delay * 2 ^ a + jit a) 15000)
      ∧ (∀ d ∈ (callModel retries delay jit outcomes).delays, d ≤ 15000)
      ∧ (250 ≤ delay →
          List.Chain' (fun a b => a ≤ b) (callModel retries delay jit outcomes).delays) := by
  intro retries delay jit outcomes hjit hall
  obtain ⟨_, hdelays, _⟩ :=
    ring_all_retriable outcomes delay jit retries 0 (fun n hn1 hn2 => hall n (by omega))
  have hform : (callModel retries delay jit outcomes).delays
      = (List.range retries).map (fun a => min (delay * 2 ^ a + jit a) 15000) := by
    rw [callModel, hdelays, List.range_eq_range']
    simp [backoff]
  refine ⟨hform, ?_, ?_⟩
  · intro d hd
    rw [hform] at hd
    obtain ⟨a, _, rfl⟩ := List.mem_map.mp hd
    exact min_le_right _ _
  · intro hdel
    have hstep : ∀ a, backoff delay jit a ≤ backoff delay jit (a + 1) := by
      intro a
      have hP : delay ≤ delay * 2 ^ a :=
        Nat.le_mul_of_pos_right delay (pow_pos (by norm_num) a)
      have h2 : delay * 2 ^ (a + 1) = delay * 2 ^ a * 2 := by
        rw [pow_succ, ← mul_assoc]
      have hj : jit a < 250 := hjit a
      have hmain : delay * 2 ^ a + jit a ≤ delay * 2 ^ (a + 1) + jit (a + 1) := by
        rw [h2]
        omega
      exact min_le_min hmain le_rfl
    rw [callModel, hdelays]
    exact chainLe_map_range' (backoff delay jit) hstep retries 0

/-- C5 witness for the amended claim: at the default baseDelay 1000 with
constant jitter 7 and retries 2, the scheduled delays are exactly
[min(1000+7, 15000), min(2000+7, 15000)] = [1007, 2007], each capped and
non-decreasing. -/
theorem call_backoff_formula_witness :
    (callModel 2 1000 (fun _ => 7)
        (fun _ => Attempt.failure
          { response := some { code := some "TIMEOUT", errMsg := none },
            status := "error", errorText := "t" })).delays
      = [1007, 2007]
    ∧ List.Chain' (fun a b => a ≤ b)
        (callModel 2 1000 (fun _ => 7)
          (fun _ => Attempt.failure
            { response := some { code := some "TIMEOUT", errMsg := none },
              status := "error", errorText := "t" })).delays := by
  have h := call_backoff_formula 2 1000 (fun _ => 7)
    (fun _ => Attempt.failure
      { response := some { code := some "TIMEOUT", errMsg := none },
        status := "error", errorText := "t" })
    (fun n => by show 7 < 250; omega) (fun n _ => ⟨_, rfl, by decide⟩)
  exact ⟨by rw [h.1]; decide, h.2.2 (by omega)⟩

/-- C5 counterexample: the original claim asserts the inter-attempt
delays within one call are always non-decreasing, but with baseDelay 0
(config.delay = 0 survives the ?? default) and jitter draws 249 then 0
(both within the claimed [0, 250) bound), call() schedules delays
[249, 0], which decrease. -/
theorem call_backoff_monotone_counterexample :
    (callModel 2 0 (fun n => if n = 0 then 249 else 0)
        (fun _ => Attempt.failure
          { response := some { code := some "TIMEOUT", errMsg := none },
            status := "error", errorText := "t" })).delays
      = [249, 0]
    ∧ ¬ List.Chain' (fun a b => a ≤ b)
        (callModel 2 0 (fun n => if n = 0 then 249 else 0)
          (fun _ => Attempt.failure
            { response := some { code := some "TIMEOUT", errMsg := none },
              status := "error", errorText := "t" })).delays
    ∧ 249 < 250 ∧ 0 < 250 := by
  refine ⟨by decide, ?_, by decide, by decide⟩
  intro h
  have h1 : (callModel 2 0 (fun n => if n = 0 then 249 else 0)
      (fun _ => Attempt.failure
        { response := some { code := some "TIMEOUT", errMsg := none },
          status := "error", errorText := "t" })).delays = [249, 0] := by decide
  rw [h1] at h
  have := List.chain'_cons.mp h
  omega

/-- C6: every call() attempt whose failure response carries the error
code SESSION_NOT_FOUND fires the UI-blanking fallback exactly once and
rejects immediately with the raw fail triple (jqXHR-derived response,
status, error message), at any attempt position and regardless of the
remaining retry budget. -/
theorem call_session_not_found :
    ∀ outcomes delay jit count budget f r,
      outcomes count = Attempt.failure f →
      f.response = some r →
      r.code = some "SESSION_NOT_FOUND" →
      ring outcomes delay jit count budget =
        { result := CallResult.rejected f, attempts := 1, delays := [], blanks := 1 } := by
  intro outcomes delay jit count budget f r h1 h2 h3
  have hr : isRetriable f.response = false := by
    rw [h2]
    simp only [isRetriable, retryCodes, List.any_cons, List.any_nil, h3, Bool.or_false]
    decide
  have hb : blanksOf f.response = 1 := by
    rw [h2]
    simp [blanksOf, h3]
  rw [ring_fail_noretry outcomes delay jit count budget f h1 hr, hb]

/-- C6 witness: a SESSION_NOT_FOUND failure on the very first attempt of
a call with a full retry budget of 3 blanks the page once and rejects at
once with the raw failure. -/
theorem call_session_not_found_witness :
    ring (fun _ => Attempt.failure
        { response := some { code := some "SESSION_NOT_FOUND", errMsg := some "no session" },
          status := "error", errorText := "Unauthorized" }) 1000 (fun _ => 0) 0 3
      = { result := CallResult.rejected
            { response := some { code := some "SESSION_NOT_FOUND", errMsg := some "no session" },
              status := "error", errorText := "Unauthorized" },
          attempts := 1, delays := [], blanks := 1 } :=
  call_session_not_found _ 1000 (fun _ => 0) 0 3 _ _ rfl rfl rfl

/-- C7 (code bug): the URL call() requests is built from gadget.apihost
directly, not from the CmsApi instance field; with the environment
apihost absent the request URL is the literal "undefined/assets/list",
while the constructor (whose own default the claim describes) would give
"https://a.cms.omniupdate.com/assets/list"; with an apihost present the
two agree. -/
theorem call_url_ignores_constructor_apihost :
    requestUrl envNoApihost "/assets/list" = "undefined/assets/list"
    ∧ (CmsApi.construct envNoApihost).apihost = "https://a.cms.omniupdate.com"
    ∧ requestUrl envNoApihost "/assets/list"
        ≠ (CmsApi.construct envNoApihost).apihost ++ "/assets/list"
    ∧ requestUrl envWithApihost "/files/list"
        = (CmsApi.construct envWithApihost).apihost ++ "/files/list" := by
  refine ⟨by decide, by decide, by decide, by decide⟩

/- ## Origin normalization: strictness -/

theorem hostCharOk_spec (c : Char) (h : hostCharOk c = true) :
    c ≠ '/' ∧ c ≠ '?' ∧ c ≠ '#' ∧ c ≠ ':' ∧ c ≠ '@' := by
  refine ⟨?_, ?_, ?_, ?_, ?_⟩ <;> (rintro rfl; revert h; decide)

theorem allChars_mem (p : Char → Bool) :
    ∀ l : List Char, allChars p l = true → ∀ c ∈ l, p c = true := by
  intro l
  induction l with
  | nil => intro _ c hc; simp at hc
  | cons x xs ih =>
    intro h c hc
    rw [allChars, Bool.and_eq_true] at h
    rcases List.mem_cons.mp hc with rfl | hmem
    · exact h.1
    · exact ih h.2 c hmem

theorem renderO_strict (scheme : String) (hs : scheme = "http" ∨ scheme = "https")
    (host : List Char) (hne : ¬ host = []) (hok : allChars hostCharOk host = true)
    (port : Option Nat) : StrictOriginStr (renderO scheme host port) := by
  refine ⟨scheme, String.mk host, port, hs, ?_, ?_, rfl⟩
  · intro hcontra
    apply hne
    simpa using congrArg String.data hcontra
  · intro c hc
    exact hostCharOk_spec c (allChars_mem hostCharOk host hok c hc)

theorem allChars_append (p : Char → Bool) :
    ∀ a b : List Char, allChars p (a ++ b) = (allChars p a && allChars p b) := by
  intro a b
  induction a with
  | nil => rfl
  | cons c t ih =>
    rw [List.cons_append, allChars, allChars, ih, Bool.and_assoc]

theorem decDigit_ok (d : Nat) (hd : d ≤ 9) : hostCharOk (decDigit d) = true := by
  interval_cases d <;> decide

theorem octetChars_ok (n : Nat) (hn : n ≤ 255) :
    octetChars n ≠ [] ∧ allChars hostCharOk (octetChars n) = true := by
  unfold octetChars
  split_ifs with ha hb
  · exact ⟨by simp, by simp [allChars, decDigit_ok n (by omega)]⟩
  · exact ⟨by simp,
      by simp [allChars, decDigit_ok (n / 10) (by omega), decDigit_ok (n % 10) (by omega)]⟩
  · exact ⟨by simp,
      by simp [allChars, decDigit_ok (n / 100) (by omega),
        decDigit_ok (n / 10 % 10) (by omega), decDigit_ok (n % 10) (by omega)]⟩

theorem renderIPv4_ok (n : Nat) :
    renderIPv4 n ≠ [] ∧ allChars hostCharOk (renderIPv4 n) = true := by
  obtain ⟨_, a2⟩ := octetChars_ok (n / 16777216 % 256) (by omega)
  obtain ⟨_, b2⟩ := octetChars_ok (n / 65536 % 256) (by omega)
  obtain ⟨_, c2⟩ := octetChars_ok (n / 256 % 256) (by omega)
  obtain ⟨_, d2⟩ := octetChars_ok (n % 256) (by omega)
  have hdot : hostCharOk '.' = true := by decide
  constructor
  · intro hcontra
    rw [renderIPv4] at hcontra
    obtain ⟨_, hcons⟩ := List.append_eq_nil.mp hcontra
    cases hcons
  · rw [renderIPv4]
    simp [allChars_append, allChars, a2, b2, c2, d2, hdot]

theorem hostIPv4_ok (host h2 : List Char) (hne : host ≠ [])
    (hok : allChars hostCharOk host = true) (h : hostIPv4 host = some h2) :
    h2 ≠ [] ∧ allChars hostCharOk h2 = true := by
  unfold hostIPv4 at h
  split_ifs at h with he
  · cases hp : ipv4Parse host with
    | none => rw [hp] at h; cases h
    | some n =>
      rw [hp, Option.map_some'] at h
      injection h with hh
      exact hh ▸ renderIPv4_ok n
  · injection h with hh
    exact hh ▸ ⟨hne, hok⟩

theorem parseOriginTail_strict (scheme : String) (host portPart : List Char) (o : String)
    (hs : scheme = "http" ∨ scheme = "https")
    (h : parseOriginTail scheme host portPart = some o) : StrictOriginStr o := by
  unfold parseOriginTail at h
  split_ifs at h with h1 h2
  split at h
  · cases h
  · rename_i host2 hip
    obtain ⟨hne2, hok2⟩ :=
      hostIPv4_ok host host2 (by simpa using h1) (by simpa using h2) hip
    split at h
    · injection h with ho
      exact ho ▸ renderO_strict scheme hs _ hne2 hok2 none
    · split_ifs at h with h3 h4 h5 h6
      · injection h with ho
        exact ho ▸ renderO_strict scheme hs _ hne2 hok2 none
      · injection h with ho
        exact ho ▸ renderO_strict scheme hs _ hne2 hok2 none
      · injection h with ho
        exact ho ▸ renderO_strict scheme hs _ hne2 hok2 _

theorem parseOriginCore_strict (scheme : String) (rest : List Char) (o : String)
    (hs : scheme = "http" ∨ scheme = "https")
    (h : parseOriginCore scheme rest = some o) : StrictOriginStr o :=
  parseOriginTail_strict scheme _ _ o hs h

theorem urlOrigin_strict (l : List Char) (o : String)
    (h : urlOrigin l = some o) : StrictOriginStr o := by
  unfold urlOrigin at h
  split_ifs at h with h1 h2
  · exact parseOriginCore_strict "https" (l.drop 8) o (Or.inr rfl) h
  · exact parseOriginCore_strict "http" (l.drop 7) o (Or.inl rfl) h

/- ## Origin normalization: universal success on plain bare hosts -/

theorem takeW_all (p : Char → Bool) :
    ∀ l, allChars p l = true → takeW p l = l := by
  intro l
  induction l with
  | nil => intro _; rfl
  | cons c cs ih =>
    intro h
    rw [allChars, Bool.and_eq_true] at h
    rw [takeW, if_pos h.1, ih h.2]

theorem dropW_all (p : Char → Bool) :
    ∀ l, allChars p l = true → dropW p l = [] := by
  intro l
  induction l with
  | nil => intro _; rfl
  | cons c cs ih =>
    intro h
    rw [allChars, Bool.and_eq_true] at h
    rw [dropW, if_pos h.1, ih h.2]

theorem allChars_imp (p q : Char → Bool) (hpq : ∀ c, p c = true → q c = true) :
    ∀ l, allChars p l = true → allChars q l = true := by
  intro l
  induction l with
  | nil => intro _; rfl
  | cons c cs ih =>
    intro h
    rw [allChars, Bool.and_eq_true] at h
    rw [allChars, Bool.and_eq_true]
    exact ⟨hpq c h.1, ih h.2⟩

theorem hasChar_of_allChars (p : Char → Bool) (ch : Char) (hch : p ch = false) :
    ∀ l, allChars p l = true → hasChar ch l = false := by
  intro l
  induction l with
  | nil => intro _; rfl
  | cons c cs ih =>
    intro h
    rw [allChars, Bool.and_eq_true] at h
    rw [hasChar, Bool.or_eq_false_iff]
    refine ⟨?_, ih h.2⟩
    by_contra hcc
    rw [Bool.not_eq_false, beq_iff_eq] at hcc
    subst hcc
    rw [h.1] at hch
    cases hch

theorem allChars_map (q : Char → Bool) (f : Char → Char) :
    ∀ l, allChars (fun c => q (f c)) l = true → allChars q (l.map f) = true := by
  intro l
  induction l with
  | nil => intro _; rfl
  | cons c cs ih =>
    intro h
    rw [allChars, Bool.and_eq_true] at h
    rw [List.map_cons, allChars, Bool.and_eq_true]
    exact ⟨h.1, ih h.2⟩

theorem lowerStarts_self_append (pat t : List Char)
    (hfix : ∀ c ∈ pat, charLower c = c) :
    lowerStarts pat (pat ++ t) = true := by
  induction pat with
  | nil => rfl
  | cons p ps ih =>
    rw [List.cons_append, lowerStarts, Bool.and_eq_true]
    refine ⟨?_, ih (fun c hc => hfix c (List.mem_cons_of_mem p hc))⟩
    rw [hfix p (List.mem_cons_self p ps)]
    exact beq_self_eq_true p

theorem str_ne_empty_data (v : String) (h : v ≠ "") : v.data ≠ [] := by
  intro hd
  apply h
  cases v with
  | mk d =>
    simp only [String.data] at hd
    subst hd
    rfl

theorem bareHostChar_ne (c : Char) (h : bareHostChar c = true) :
    c ≠ '/' ∧ c ≠ '?' ∧ c ≠ '#' ∧ c ≠ ':' ∧ c ≠ '@' := by
  refine ⟨?_, ?_, ?_, ?_, ?_⟩ <;> (rintro rfl; revert h; decide)

theorem normalizeTrimmed_strict (pp w o : String)
    (h : normalizeTrimmed pp w = some o) :
    (isAbsHttp w.data || isProtoRel w.data || isBareHost w.data) = true
    ∧ StrictOriginStr o := by
  unfold normalizeTrimmed at h
  split_ifs at h with h1 h2 h3 h4 h5
  · exact ⟨by simp [h3], urlOrigin_strict _ _ h⟩
  · exact ⟨by simp [h4], urlOrigin_strict _ _ h⟩
  · exact ⟨by simp [h5], urlOrigin_strict _ _ h⟩

/-- C2: every successful normalization both certifies that the input
matched one of the three accepted forms and yields a strict
scheme://host[:port] origin with no path; a plain bare-host input (all
characters in the accepted host alphabet, not ending in a numeric label)
always normalizes to its lowercased https origin; hosts ending in a
numeric label follow the WHATWG IPv4 rule — invalid addresses such as
300.1.2.3 or 1.2.3.4.5 make the URL constructor throw (unusable), valid
ones such as 127.1 are normalized to dotted-decimal form; the literal
wildcard "*" normalizes to an unusable value; and whenever normalization
yields an unusable value, every sendMessageToTop call immediately
rejects with an error whose code is missing_msghost, performs no
postMessage call, and leaves the pending-request registry unchanged. -/
theorem normalizeOrigin_trust_gate :
    (∀ pp v o, normalizeOrigin pp (some v) = some o →
        acceptedForm v = true ∧ StrictOriginStr o)
    ∧ (∀ v, jsTrim v = v → v ≠ "" →
        allChars (fun c => bareHostChar c && hostCharOk (charLower c)) v.data = true →
        isAbsHttp v.data = false → isProtoRel v.data = false →
        endsInANumber (v.data.map charLower) = false →
        normalizeOrigin "https:" (some v)
          = some (renderO "https" (v.data.map charLower) none))
    ∧ (normalizeOrigin "https:" (some "300.1.2.3") = none
        ∧ normalizeOrigin "https:" (some "1.2.3.4.5") = none
        ∧ normalizeOrigin "https:" (some "127.1") = some "https://127.0.0.1")
    ∧ (∀ pp, normalizeOrigin pp (some "*") = none)
    ∧ (∀ pp cfg s meta nm payload cid ft pk,
        normalizeOrigin pp (some cfg) = none →
        s.msghostOrigin = normalizeOrigin pp (some cfg) →
        (sendMessageToTop s meta nm payload cid ft pk).posts = []
        ∧ (sendMessageToTop s meta nm payload cid ft pk).immediateError =
            some { code := "missing_msghost",
                   message := "gadget.msghost is not set (or not a valid origin); cannot postMessage() safely.",
                   name := nm }
        ∧ (sendMessageToTop s meta nm payload cid ft pk).state.registry = s.registry) := by
  refine ⟨?_, ?_, ⟨by decide, by decide, by decide⟩, ?_, ?_⟩
  · intro pp v o h
    obtain ⟨hforms, hstrict⟩ := normalizeTrimmed_strict pp (jsTrim v) o h
    exact ⟨hforms, hstrict⟩
  · intro v htrim hne hchars habs hrel hnum
    have hbare_all : allChars bareHostChar v.data = true :=
      allChars_imp _ _ (fun c hc => by rw [Bool.and_eq_true] at hc; exact hc.1) v.data hchars
    have hdata_ne : v.data ≠ [] := str_ne_empty_data v hne
    have htake : takeW bareHostChar v.data = v.data := takeW_all _ _ hbare_all
    have hdrop : dropW bareHostChar v.data = [] := dropW_all _ _ hbare_all
    have hbare : isBareHost v.data = true := by
      simp only [isBareHost, htake, hdrop]
      simp [beq_iff_eq, hdata_ne]
    have hstar : v ≠ "*" := by
      intro hv
      subst hv
      revert hbare_all
      decide
    show normalizeTrimmed "https:" (jsTrim v) = _
    rw [htrim]
    unfold normalizeTrimmed
    rw [if_neg hne, if_neg hstar, habs, hrel, hbare]
    simp only [Bool.false_eq_true, if_false, if_true]
    have hsplit : ("https:" ++ "//" ++ v).data = "https://".data ++ v.data := rfl
    rw [hsplit]
    unfold urlOrigin
    rw [if_pos (lowerStarts_self_append "https://".data v.data (by decide))]
    have hdrop8 : ("https://".data ++ v.data).drop 8 = v.data := by
      have h8 : ("https://".data).length = 8 := by decide
      rw [← h8, List.drop_left]
    rw [hdrop8]
    have hdelims : allChars (fun c => !(c == '/' || c == '?' || c == '#')) v.data = true := by
      refine allChars_imp _ _ (fun c hc => ?_) v.data hbare_all
      obtain ⟨e1, e2, e3, _, _⟩ := bareHostChar_ne c hc
      have b1 : (c == '/') = false := beq_eq_false_iff_ne.mpr e1
      have b2 : (c == '?') = false := beq_eq_false_iff_ne.mpr e2
      have b3 : (c == '#') = false := beq_eq_false_iff_ne.mpr e3
      simp [b1, b2, b3]
    have hcolons : allChars (fun c => !(c == ':')) v.data = true := by
      refine allChars_imp _ _ (fun c hc => ?_) v.data hbare_all
      obtain ⟨_, _, _, e4, _⟩ := bareHostChar_ne c hc
      simp [beq_eq_false_iff_ne.mpr e4]
    have hauth : takeW (fun c => !(c == '/' || c == '?' || c == '#')) v.data = v.data :=
      takeW_all _ _ hdelims
    have huser : dropUserinfo v.data = v.data := by
      rw [dropUserinfo, hasChar_of_allChars bareHostChar '@' (by decide) v.data hbare_all]
      simp
    simp only [parseOriginCore, hauth, huser, takeW_all _ _ hcolons, dropW_all _ _ hcolons]
    have hm : ((v.data.map charLower) == []) = false := by
      rw [beq_eq_false_iff_ne]
      intro hmm
      exact hdata_ne (List.map_eq_nil_iff.mp hmm)
    have hok : allChars hostCharOk (v.data.map charLower) = true :=
      allChars_map _ _ v.data
        (allChars_imp _ _ (fun c hc => by rw [Bool.and_eq_true] at hc; exact hc.2) v.data hchars)
    have hipq : hostIPv4 (v.data.map charLower) = some (v.data.map charLower) := by
      rw [hostIPv4, hnum]
      rfl
    rw [parseOriginTail, hm, hok, hipq]
    simp
  · intro pp
    show normalizeTrimmed pp (jsTrim "*") = none
    have h : jsTrim "*" = "*" := by decide
    rw [h]
    rfl
  · intro pp cfg s meta nm payload cid ft pk h1 h2
    have hmo : s.msghostOrigin = none := by rw [h2, h1]
    refine ⟨?_, ?_, ?_⟩ <;> simp [sendMessageToTop, hmo, jsTruthyOptStr]

/-- C2 witness: the mixed-case absolute URL with explicit default port
and a path normalizes to the strict origin "https://example.com"; the
plain bare host cdn.example.org normalizes via the bare-host clause to
its https origin; the wildcard is unusable and a subsequent get-location
send fast-fails with missing_msghost, posting nothing. -/
theorem normalizeOrigin_trust_gate_witness :
    (acceptedForm "HTTPS://Example.COM:443/some/path" = true
      ∧ StrictOriginStr "https://example.com")
    ∧ normalizeOrigin "https:" (some "cdn.example.org")
        = some (renderO "https" ("cdn.example.org".data.map charLower) none)
    ∧ renderO "https" ("cdn.example.org".data.map charLower) none = "https://cdn.example.org"
    ∧ (sendMessageToTop (initB (normalizeOrigin "https:" (some "*")))
        { gid := none, url := none, token := none, place := none }
        "get-location" JsData.nullData "cb1" true true).posts = []
    ∧ (sendMessageToTop (initB (normalizeOrigin "https:" (some "*")))
        { gid := none, url := none, token := none, place := none }
        "get-location" JsData.nullData "cb1" true true).immediateError =
        some { code := "missing_msghost",
               message := "gadget.msghost is not set (or not a valid origin); cannot postMessage() safely.",
               name := "get-location" } := by
  have h1 := normalizeOrigin_trust_gate.1 "https:" "HTTPS://Example.COM:443/some/path"
    "https://example.com" (by decide)
  have h2 := normalizeOrigin_trust_gate.2.1 "cdn.example.org"
    (by decide) (by decide) (by decide) (by decide) (by decide) (by decide)
  have h4 := normalizeOrigin_trust_gate.2.2.2.2 "https:" "*"
    (initB (normalizeOrigin "https:" (some "*")))
    { gid := none, url := none, token := none, place := none }
    "get-location" JsData.nullData "cb1" true true
    (normalizeOrigin_trust_gate.2.2.2.1 "https:") rfl
  exact ⟨h1, h2, by decide, h4.1, h4.2.1⟩

/-- C3: an inbound message whose source is not the top window or whose
declared origin differs from the normalized trusted origin (including
when no trusted origin is set) is discarded with no observable effect:
the bridge state — pending-request registry, settlement counters and
environment — is unchanged and no broadcast is dispatched. -/
theorem messageHandler_untrusted_noop :
    ∀ (s : BridgeState) (ev : MessageEvent),
      (ev.sourceIsTop = false ∨ ∀ o, s.msghostOrigin = some o → ev.origin ≠ o) →
      messageHandler s ev = (s, []) := by
  intro s ev h
  have ht : isTrustedEvent s ev = false := by
    unfold isTrustedEvent
    rcases h with h | h
    · simp [h]
    · cases hmo : s.msghostOrigin with
      | none => simp
      | some o => simp [beq_eq_false_iff_ne.mpr (h o hmo)]
  unfold messageHandler
  rw [ht]
  simp

/-- C3 witness: a message from the right window but a different origin
than the configured trusted origin is a complete no-op. -/
theorem messageHandler_untrusted_noop_witness :
    messageHandler (initB (some "https://host.example"))
      { present := true, sourceIsTop := true, originIsString := true,
        origin := "https://evil.example",
        data := RawMsg.jsonString
          (some { callback := some "cb1", name := none, payload := JsData.nullData }) }
      = (initB (some "https://host.example"), []) := by
  refine messageHandler_untrusted_noop _ _ (Or.inr ?_)
  intro o ho
  injection ho with ho2
  subst ho2
  decide

/- ## Registry lemmas -/

theorem regFind_remove_self (c : String) :
    ∀ l, regFind (regRemove l c) c = none := by
  intro l
  induction l with
  | nil => rfl
  | cons p t ih =>
    obtain ⟨k, e⟩ := p
    rw [regRemove]
    split_ifs with hk
    · exact ih
    · rw [regFind, if_neg hk]
      exact ih

theorem regFind_remove_ne (c c' : String) (h : c' ≠ c) :
    ∀ l, regFind (regRemove l c) c' = regFind l c' := by
  intro l
  induction l with
  | nil => rfl
  | cons p t ih =>
    obtain ⟨k, e⟩ := p
    rw [regRemove]
    split_ifs with hk
    · rw [regFind, if_neg (by rw [hk]; exact fun he => h he.symm), ih]
    · rw [regFind, regFind, ih]

theorem regRemove_of_find_none (c : String) :
    ∀ l, regFind l c = none → regRemove l c = l := by
  intro l
  induction l with
  | nil => intro _; rfl
  | cons p t ih =>
    obtain ⟨k, e⟩ := p
    intro h
    rw [regFind] at h
    split_ifs at h with hk
    · rw [regRemove, if_neg hk, ih h]

/- ## clearPending lemmas -/

theorem clearPending_msghost (s : BridgeState) (c : String) :
    (clearPending s c).msghostOrigin = s.msghostOrigin := by
  unfold clearPending
  cases regFind s.registry c <;> rfl

theorem clearPending_nextDix (s : BridgeState) (c : String) :
    (clearPending s c).nextDix = s.nextDix := by
  unfold clearPending
  cases regFind s.registry c <;> rfl

theorem clearPending_resolves (s : BridgeState) (c : String) :
    (clearPending s c).resolves = s.resolves := by
  unfold clearPending
  cases regFind s.registry c <;> rfl

theorem clearPending_rejects (s : BridgeState) (c : String) :
    (clearPending s c).rejects = s.rejects := by
  unfold clearPending
  cases regFind s.registry c <;> rfl

theorem clearPending_find_self (s : BridgeState) (c : String) :
    regFind (clearPending s c).registry c = none := by
  unfold clearPending
  cases h : regFind s.registry c with
  | none => exact h
  | some e => exact regFind_remove_self c s.registry

theorem clearPending_find_ne (s : BridgeState) (c c' : String) (h : c' ≠ c) :
    regFind (clearPending s c).registry c' = regFind s.registry c' := by
  unfold clearPending
  cases regFind s.registry c with
  | none => rfl
  | some e => exact regFind_remove_ne c c' h s.registry

theorem clearPending_idem (s : BridgeState) (c : String) :
    clearPending (clearPending s c) c = clearPending s c := by
  show (match regFind (clearPending s c).registry c with
        | none => clearPending s c
        | some _ =>
          { clearPending s c with registry := regRemove (clearPending s c).registry c })
      = clearPending s c
  rw [clearPending_find_self s c]

/- ## Invariant preservation -/

theorem initB_inv (mo : Option String) : BridgeInv (initB mo) := by
  refine ⟨?_, ?_, ?_, ?_⟩
  · intro d; simp [settledCount, initB]
  · intro d _; simp [settledCount, initB]
  · intro c e h; cases h
  · intro c c' e e' h; cases h

theorem inv_bump_fresh (s' s : BridgeState)
    (hreg : s'.registry = s.registry)
    (hnext : s'.nextDix = s.nextDix + 1)
    (hres : s'.resolves = s.resolves)
    (hrej : s'.rejects = bumpF s.rejects s.nextDix)
    (hs : BridgeInv s) : BridgeInv s' := by
  obtain ⟨hle, hfresh, hentry, hinj⟩ := hs
  have hsum : ∀ d, settledCount s' d =
      if d = s.nextDix then settledCount s d + 1 else settledCount s d := by
    intro d
    rw [settledCount, settledCount, hres, hrej, bumpF]
    split_ifs <;> omega
  refine ⟨?_, ?_, ?_, ?_⟩
  · intro d
    rw [hsum]
    split_ifs with hd
    · rw [hd, hfresh s.nextDix le_rfl]
    · exact hle d
  · intro d hd
    rw [hnext] at hd
    rw [hsum, if_neg (by omega)]
    exact hfresh d (by omega)
  · intro c e hf
    rw [hreg] at hf
    obtain ⟨hz, hlt⟩ := hentry c e hf
    rw [hsum, if_neg (by omega), hnext]
    exact ⟨hz, by omega⟩
  · intro c c' e e' hf hf'
    rw [hreg] at hf hf'
    exact hinj c c' e e' hf hf'

theorem inv_insert (s' s : BridgeState) (cid : String) (ft : Bool)
    (_hcid : regFind s.registry cid = none)
    (hreg : s'.registry = (cid, ⟨s.nextDix, ft⟩) :: s.registry)
    (hnext : s'.nextDix = s.nextDix + 1)
    (hres : s'.resolves = s.resolves)
    (hrej : s'.rejects = s.rejects)
    (hs : BridgeInv s) : BridgeInv s' := by
  obtain ⟨hle, hfresh, hentry, hinj⟩ := hs
  have hsum : ∀ d, settledCount s' d = settledCount s d := by
    intro d
    rw [settledCount, settledCount, hres, hrej]
  have hfind : ∀ c, regFind s'.registry c
      = if cid = c then some ⟨s.nextDix, ft⟩ else regFind s.registry c := by
    intro c
    rw [hreg]
    rfl
  refine ⟨?_, ?_, ?_, ?_⟩
  · intro d
    rw [hsum]
    exact hle d
  · intro d hd
    rw [hnext] at hd
    rw [hsum]
    exact hfresh d (by omega)
  · intro c e hf
    rw [hfind] at hf
    split_ifs at hf with hc
    · injection hf with he
      subst he
      rw [hsum, hnext]
      dsimp only
      exact ⟨hfresh s.nextDix le_rfl, by omega⟩
    · obtain ⟨hz, hlt⟩ := hentry c e hf
      rw [hsum, hnext]
      exact ⟨hz, by omega⟩
  · intro c c' e e' hf hf' hdix
    rw [hfind] at hf hf'
    split_ifs at hf hf' with hc hc'
    · rw [← hc, ← hc']
    · injection hf with he
      subst he
      obtain ⟨_, hlt⟩ := hentry c' e' hf'
      dsimp only at hdix
      omega
    · injection hf' with he'
      subst he'
      obtain ⟨_, hlt⟩ := hentry c e hf
      dsimp only at hdix
      omega
    · exact hinj c c' e e' hf hf' hdix

theorem inv_settle_entry (s : BridgeState) (cid : String) (e : PendEntry)
    (s' : BridgeState)
    (hf : regFind s.registry cid = some e)
    (hreg : s'.registry = (clearPending s cid).registry)
    (hnext : s'.nextDix = s.nextDix)
    (hsum : ∀ d, settledCount s' d =
      if d = e.dix then settledCount s d + 1 else settledCount s d)
    (hs : BridgeInv s) : BridgeInv s' := by
  obtain ⟨hle, hfresh, hentry, hinj⟩ := hs
  obtain ⟨hz, hlt⟩ := hentry cid e hf
  refine ⟨?_, ?_, ?_, ?_⟩
  · intro d
    rw [hsum]
    split_ifs with hd
    · subst hd
      omega
    · exact hle d
  · intro d hd
    rw [hnext] at hd
    rw [hsum, if_neg (by omega)]
    exact hfresh d hd
  · intro c' e' hf'
    rw [hreg] at hf'
    have hc' : c' ≠ cid := by
      intro hcc
      rw [hcc, clearPending_find_self] at hf'
      cases hf'
    rw [clearPending_find_ne s cid c' hc'] at hf'
    obtain ⟨hz', hlt'⟩ := hentry c' e' hf'
    have hne : e'.dix ≠ e.dix := by
      intro hdd
      exact hc' (hinj c' cid e' e hf' hf hdd)
    rw [hsum, if_neg hne, hnext]
    exact ⟨hz', hlt'⟩
  · intro c c' e1 e2 hf1 hf2 hdix
    rw [hreg] at hf1 hf2
    have hc1 : c ≠ cid := by
      intro hcc; rw [hcc, clearPending_find_self] at hf1; cases hf1
    have hc2 : c' ≠ cid := by
      intro hcc; rw [hcc, clearPending_find_self] at hf2; cases hf2
    rw [clearPending_find_ne s cid c hc1] at hf1
    rw [clearPending_find_ne s cid c' hc2] at hf2
    exact hinj c c' e1 e2 hf1 hf2 hdix

/- ## One-step case analyses -/

theorem send_state_cases (s : BridgeState) (meta : GadgetMeta) (name : String)
    (payload : JsData) (cid : String) (ft pk : Bool) :
    (sendMessageToTop s meta name payload cid ft pk).state = s
    ∨ (sendMessageToTop s meta name payload cid ft pk).state =
        { s with rejects := bumpF s.rejects s.nextDix, nextDix := s.nextDix + 1 }
    ∨ (regFind s.registry cid = none
        ∧ (sendMessageToTop s meta name payload cid ft pk).state =
            { s with registry := (cid, ⟨s.nextDix, ft⟩) :: s.registry,
                     nextDix := s.nextDix + 1 }) := by
  by_cases ht : jsTruthyOptStr s.msghostOrigin = true
  · cases hf : regFind s.registry cid with
    | some e =>
      left
      simp [sendMessageToTop, ht, hf]
    | none =>
      cases pk with
      | true =>
        right; right
        refine ⟨rfl, ?_⟩
        simp [sendMessageToTop, ht, hf]
      | false =>
        right; left
        simp [sendMessageToTop, ht, hf, clearPending, regFind, regRemove,
          regRemove_of_find_none cid s.registry hf]
  · right; left
    simp [sendMessageToTop, ht]

theorem messageHandler_state_cases (s : BridgeState) (ev : MessageEvent) :
    (messageHandler s ev).1 = s
    ∨ ∃ c e, regFind s.registry c = some e
        ∧ (messageHandler s ev).1 =
          { clearPending s c with resolves := bumpF (clearPending s c).resolves e.dix } := by
  unfold messageHandler
  split_ifs with ht
  · cases hp : parseMessageData ev.data with
    | none => left; simp [hp]
    | some m =>
      by_cases hcb : jsTruthyOptStr m.callback = true
      · cases hf : regFind s.registry (m.callback.getD "") with
        | none => left; simp [hp, hcb, hf]
        | some e =>
          right
          exact ⟨m.callback.getD "", e, hf, by simp [hp, hcb, hf]⟩
      · left
        cases hm : m.name with
        | none => simp [hp, hcb, hm]
        | some n => by_cases hn : n = "" <;> simp [hp, hcb, hm, hn]
  · left
    rfl

theorem messageHandler_unmatched (s : BridgeState) (ev : MessageEvent) (m : WireMsg)
    (c : String) (hm : parseMessageData ev.data = some m)
    (hcb : m.callback = some c) (hc : c ≠ "")
    (hnone : regFind s.registry c = none) :
    messageHandler s ev = (s, []) := by
  unfold messageHandler
  split_ifs with ht
  · simp [hm, hcb, jsTruthyOptStr, hc, hnone]
  · rfl

/- ## Step and run preserve the invariant -/

theorem stepB_inv (s : BridgeState) (e : BEvent) (hs : BridgeInv s) :
    BridgeInv (stepB s e) := by
  cases e with
  | send meta name payload cid ft pk =>
    simp only [stepB]
    rcases send_state_cases s meta name payload cid ft pk with h | h | ⟨hf, h⟩
    · rw [h]; exact hs
    · rw [h]
      exact inv_bump_fresh _ s rfl rfl rfl rfl hs
    · rw [h]
      exact inv_insert _ s cid ft hf rfl rfl rfl rfl hs
  | timerFire cid =>
    simp only [stepB]
    split
    · exact hs
    · rename_i e hf
      split_ifs with ha
      · refine inv_settle_entry s cid e _ hf rfl (clearPending_nextDix s cid) ?_ hs
        intro d
        rw [settledCount, settledCount]
        dsimp only
        rw [clearPending_resolves, clearPending_rejects]
        simp only [bumpF]
        split_ifs <;> omega
      · exact hs
  | inbound ev =>
    simp only [stepB]
    rcases messageHandler_state_cases s ev with h | ⟨c, e, hf, h⟩
    · rw [h]; exact hs
    · rw [h]
      refine inv_settle_entry s c e _ hf rfl (clearPending_nextDix s c) ?_ hs
      intro d
      rw [settledCount, settledCount]
      dsimp only
      rw [clearPending_resolves, clearPending_rejects]
      simp only [bumpF]
      split_ifs <;> omega

theorem runB_inv_aux : ∀ (es : List BEvent) (s : BridgeState),
    BridgeInv s → BridgeInv (runB s es) := by
  intro es
  induction es with
  | nil => intro s hs; exact hs
  | cons e t ih =>
    intro s hs
    exact ih (stepB s e) (stepB_inv s e hs)

/-- C1: along any event trace from page load, every request Deferred is
settled at most once in total across resolution and rejection (mutual
exclusion); once a pending request has been cleaned up (timed out or
otherwise removed), a later-arriving response carrying the same callback
id is a complete no-op (no second resolution, no state change, no
broadcast); cleanup (clearPending) is idempotent from any state; and a
still-pending request whose armed timeout timer fires is settled exactly
once by it. -/
theorem sendMessageToTop_settles_once
    (mo : Option String) (es : List BEvent)
    (ev : MessageEvent) (m : WireMsg) (c cid2 : String) (e2 : PendEntry)
    (hparse : parseMessageData ev.data = some m)
    (hcb : m.callback = some c)
    (hc : c ≠ "")
    (hnone : regFind (runB (initB mo) es).registry c = none)
    (h2 : regFind (runB (initB mo) es).registry cid2 = some e2)
    (harm : e2.timerArmed = true) :
    (∀ d, (runB (initB mo) es).resolves d + (runB (initB mo) es).rejects d ≤ 1)
    ∧ messageHandler (runB (initB mo) es) ev = (runB (initB mo) es, [])
    ∧ (∀ (t : BridgeState) (c' : String),
        clearPending (clearPending t c') c' = clearPending t c')
    ∧ (stepB (runB (initB mo) es) (BEvent.timerFire cid2)).resolves e2.dix
        + (stepB (runB (initB mo) es) (BEvent.timerFire cid2)).rejects e2.dix = 1 := by
  obtain ⟨hle, hfresh, hentry, hinj⟩ := runB_inv_aux es (initB mo) (initB_inv mo)
  refine ⟨hle, ?_, ?_, ?_⟩
  · exact messageHandler_unmatched _ ev m c hparse hcb hc hnone
  · intro t c'
    exact clearPending_idem t c'
  · obtain ⟨hz, _⟩ := hentry cid2 e2 h2
    rw [settledCount] at hz
    simp only [stepB, h2, harm, if_true]
    rw [clearPending_resolves, clearPending_rejects]
    simp only [bumpF]
    split_ifs <;> omega

/-- C1 witness: after sending one request (callback id "a", timer
armed), the request Deferred is settled at most once, a trusted response
for the unknown id "b" is a complete no-op, cleanup is idempotent, and
firing the armed timer settles the pending request exactly once. -/
theorem sendMessageToTop_settles_once_witness :
    ((runB (initB (some "https://host.example")) demoTraceC1).resolves 0
        + (runB (initB (some "https://host.example")) demoTraceC1).rejects 0 ≤ 1)
    ∧ messageHandler (runB (initB (some "https://host.example")) demoTraceC1) demoEventC1
        = (runB (initB (some "https://host.example")) demoTraceC1, [])
    ∧ clearPending (clearPending (initB none) "z") "z" = clearPending (initB none) "z"
    ∧ (stepB (runB (initB (some "https://host.example")) demoTraceC1)
          (BEvent.timerFire "a")).resolves 0
        + (stepB (runB (initB (some "https://host.example")) demoTraceC1)
          (BEvent.timerFire "a")).rejects 0 = 1 := by
  obtain ⟨h1, h2, h3, h4⟩ := sendMessageToTop_settles_once (some "https://host.example")
    demoTraceC1 demoEventC1
    { callback := some "b", name := none, payload := JsData.nullData } "b" "a" ⟨0, true⟩
    rfl rfl (by decide) (by decide) (by decide) rfl
  exact ⟨h1 0, h2, h3 (initB none) "z", h4⟩

/- ## JS object merge lemmas -/

theorem lookupO_setKey : ∀ (m : JsObj) (k v key : String),
    lookupO (setKey m k v) key = if k = key then some v else lookupO m key := by
  intro m
  induction m with
  | nil =>
    intro k v key
    simp only [setKey, lookupO]
  | cons p t ih =>
    obtain ⟨k', v'⟩ := p
    intro k v key
    by_cases h1 : k' = k
    · subst h1
      simp only [setKey, if_pos rfl]
      simp only [lookupO]
      split_ifs <;> rfl
    · simp only [setKey, if_neg h1]
      by_cases h2 : k' = key
      · have h3 : ¬ k = key := fun he => h1 (h2.trans he.symm)
        simp only [lookupO, if_pos h2, if_neg h3]
      · by_cases h3 : k = key
        · simp only [lookupO, if_neg h2, ih, if_pos h3]
        · simp only [lookupO, if_neg h2, ih, if_neg h3]

theorem lookupO_eq_none : ∀ (m : JsObj) (key : String),
    key ∉ objKeys m → lookupO m key = none := by
  intro m
  induction m with
  | nil => intro key _; rfl
  | cons p t ih =>
    obtain ⟨k, v⟩ := p
    intro key hk
    rw [objKeys, List.map_cons, List.mem_cons] at hk
    push_neg at hk
    rw [lookupO, if_neg (fun he => hk.1 he.symm)]
    exact ih key hk.2

theorem lookupO_setObj : ∀ (obj m : JsObj) (key : String),
    (objKeys obj).Nodup →
    lookupO (setObj m obj) key = firstSome (lookupO obj key) (lookupO m key) := by
  intro obj
  induction obj with
  | nil => intro m key _; rfl
  | cons p t ih =>
    obtain ⟨k0, v0⟩ := p
    intro m key hnd
    rw [objKeys, List.map_cons, List.nodup_cons] at hnd
    rw [setObj, ih (setKey m k0 v0) key hnd.2, lookupO_setKey]
    by_cases hk : k0 = key
    · subst hk
      have ht : lookupO t k0 = none := lookupO_eq_none t k0 hnd.1
      simp [lookupO, firstSome, ht]
    · simp [lookupO, firstSome, hk]

/-- C8: the Deferred resolved by collectData and the Environment it
builds are both exactly the spread {...urlData, ...hostData}: on every
key the host-provided value wins when present, else the URL-derived
value is kept; in particular URL parameters {a: 1, b: 2} merged with
host payload {b: 3, c: 4} yield {a: 1, b: 3, c: 4}. -/
theorem collectData_merge_host_wins :
    (∀ urlData host k, (objKeys urlData).Nodup → (objKeys host).Nodup →
        lookupO (collectDataModel [] urlData (Except.ok (some host))).2 k
          = firstSome (lookupO host k) (lookupO urlData k)
        ∧ (collectDataModel [] urlData (Except.ok (some host))).1
            = Except.ok (jsSpread urlData host)
        ∧ lookupO (jsSpread urlData host) k
            = firstSome (lookupO host k) (lookupO urlData k))
    ∧ jsSpread [("a", "1"), ("b", "2")] [("b", "3"), ("c", "4")]
        = [("a", "1"), ("b", "3"), ("c", "4")] := by
  constructor
  · intro urlData host k hu hh
    have hsp : ∀ key, lookupO (jsSpread urlData host) key
        = firstSome (lookupO host key) (lookupO urlData key) := by
      intro key
      rw [jsSpread, lookupO_setObj host (setObj [] urlData) key hh,
        lookupO_setObj urlData [] key hu]
      cases lookupO host key <;> cases lookupO urlData key <;> rfl
    have henv : (collectDataModel [] urlData (Except.ok (some host))).2
        = jsSpread urlData host := rfl
    exact ⟨by rw [henv]; exact hsp k, rfl, hsp k⟩
  · decide

/-- C8 witness: the merge lemma applied at the concrete round-trip
example, key "b" (host value wins). -/
theorem collectData_merge_host_wins_witness :
    lookupO (collectDataModel [] [("a", "1"), ("b", "2")]
        (Except.ok (some [("b", "3"), ("c", "4")]))).2 "b"
      = firstSome (lookupO [("b", "3"), ("c", "4")] "b")
          (lookupO [("a", "1"), ("b", "2")] "b")
    ∧ lookupO (collectDataModel [] [("a", "1"), ("b", "2")]
        (Except.ok (some [("b", "3"), ("c", "4")]))).2 "b" = some "3" := by
  obtain ⟨he, _, _⟩ := collectData_merge_host_wins.1 [("a", "1"), ("b", "2")]
    [("b", "3"), ("c", "4")] "b" (by decide) (by decide)
  exact ⟨he, by rw [he]; decide⟩

/-- C9: whatever way the host environment request settles — failure,
the unsupported-message sentinel, a nullish reply, or a proper
environment object — the init sequence sets the process-wide ready flag,
emits exactly one ready broadcast, and gadget.ready() resolves
immediately afterwards. -/
theorem init_ready_both_branches :
    ∀ (env0 urlData : JsObj) (hostResp : Except ChanErr EnvPayload),
      (initModel env0 urlData hostResp).1.isReady = true
      ∧ (initModel env0 urlData hostResp).1.readyFires = 1
      ∧ readyResolvesNow (initModel env0 urlData hostResp).1 = true := by
  intro env0 urlData hostResp
  cases hostResp with
  | error e => exact ⟨rfl, rfl, rfl⟩
  | ok p => cases p <;> exact ⟨rfl, rfl, rfl⟩

/- ## Heap lemmas for in-place mutation -/

theorem hSet_length : ∀ (h : Heap) (r : Nat) (o : JsObj),
    (hSet h r o).length = h.length := by
  intro h
  induction h with
  | nil => intro r o; rfl
  | cons x t ih =>
    intro r o
    cases r with
    | zero => rfl
    | succ n => simp only [hSet, List.length_cons, ih]

theorem hGet_hSet : ∀ (h : Heap) (r : Nat) (o : JsObj),
    r < h.length → hGet (hSet h r o) r = o := by
  intro h
  induction h with
  | nil =>
    intro r o hr
    simp at hr
  | cons x t ih =>
    intro r o hr
    cases r with
    | zero => rfl
    | succ n => exact ih n o (by simpa using hr)

theorem hWrite_length (h : Heap) (r : Nat) (k v : String) :
    (hWrite h r k v).length = h.length := by
  rw [hWrite, hSet_length]

theorem lookupO_hWrite (h : Heap) (r : Nat) (k v : String) (hr : r < h.length) :
    ∀ key, lookupO (hGet (hWrite h r k v) r) key
      = if k = key then some v else lookupO (hGet h r) key := by
  intro key
  rw [hWrite, hGet_hSet h r _ hr, lookupO_setKey]

/-- C10: assets_list (like every endpoint wrapper) and the call() core
mutate the caller's config object in place through the shared reference:
after the call the caller's object contains authorization_token set to
the gadget token, the site default has been written into it when the
caller's site was JS-falsy (and the caller's own truthy site is kept),
every other field is untouched, and the object differs from the original
whenever the token was not already there; the call() mutation alone
already plants the token. -/
theorem endpoint_call_mutates_config :
    ∀ (selfSite tok : String) (h : Heap) (r : Nat),
      r < h.length →
      lookupO (hGet (assetsListMutate selfSite tok h r) r) "authorization_token" = some tok
      ∧ (lookupO (hGet h r) "authorization_token" ≠ some tok →
          hGet (assetsListMutate selfSite tok h r) r ≠ hGet h r)
      ∧ (jsTruthyOptStr (lookupO (hGet h r) "site") = false →
          lookupO (hGet (assetsListMutate selfSite tok h r) r) "site" = some selfSite)
      ∧ (∀ s0, jsTruthyOptStr (lookupO (hGet h r) "site") = true →
          lookupO (hGet h r) "site" = some s0 →
          lookupO (hGet (assetsListMutate selfSite tok h r) r) "site" = some s0)
      ∧ (∀ k, k ≠ "site" → k ≠ "authorization_token" →
          lookupO (hGet (assetsListMutate selfSite tok h r) r) k = lookupO (hGet h r) k)
      ∧ (∀ (h2 : Heap) (r2 : Nat), r2 < h2.length →
          lookupO (hGet (callMutate tok h2 r2) r2) "authorization_token" = some tok) := by
  intro selfSite tok h r hr
  have hcall : ∀ (h2 : Heap) (r2 : Nat), r2 < h2.length →
      lookupO (hGet (callMutate tok h2 r2) r2) "authorization_token" = some tok := by
    intro h2 r2 hr2
    rw [callMutate, lookupO_hWrite h2 r2 _ _ hr2, if_pos rfl]
  by_cases hsite : jsTruthyOptStr (lookupO (hGet h r) "site") = true
  · have hmut : assetsListMutate selfSite tok h r = callMutate tok h r := by
      rw [assetsListMutate, if_pos hsite]
    refine ⟨?_, ?_, ?_, ?_, ?_, hcall⟩
    · rw [hmut]
      exact hcall h r hr
    · intro hne heq
      apply hne
      rw [← heq, hmut]
      exact hcall h r hr
    · intro hfal
      rw [hsite] at hfal
      cases hfal
    · intro s0 _ hs0
      rw [hmut, callMutate, lookupO_hWrite h r _ _ hr, if_neg (by decide)]
      exact hs0
    · intro k _ hk2
      rw [hmut, callMutate, lookupO_hWrite h r _ _ hr, if_neg (fun he => hk2 he.symm)]
  · have hmut : assetsListMutate selfSite tok h r
        = callMutate tok (hWrite h r "site" selfSite) r := by
      rw [assetsListMutate, if_neg hsite]
    have hr1 : r < (hWrite h r "site" selfSite).length := by
      rw [hWrite_length]
      exact hr
    refine ⟨?_, ?_, ?_, ?_, ?_, hcall⟩
    · rw [hmut]
      exact hcall _ r hr1
    · intro hne heq
      apply hne
      rw [← heq, hmut]
      exact hcall _ r hr1
    · intro _
      rw [hmut, callMutate, lookupO_hWrite _ r _ _ hr1, if_neg (by decide),
        lookupO_hWrite h r _ _ hr, if_pos rfl]
    · intro s0 htru _
      rw [htru] at hsite
      exact absurd rfl hsite
    · intro k hk1 hk2
      rw [hmut, callMutate, lookupO_hWrite _ r _ _ hr1, if_neg (fun he => hk2 he.symm),
        lookupO_hWrite h r _ _ hr, if_neg (fun he => hk1 he.symm)]

/-- C10 witness: a caller object {path: "/about"} passed to assets_list
with site "mysite" and token "tok123" ends up, through the caller's own
reference, as {path: "/about", site: "mysite", authorization_token:
"tok123"} — changed in place, defaults written, other fields intact. -/
theorem endpoint_call_mutates_config_witness :
    lookupO (hGet (assetsListMutate "mysite" "tok123" [[("path", "/about")]] 0) 0)
        "authorization_token" = some "tok123"
    ∧ hGet (assetsListMutate "mysite" "tok123" [[("path", "/about")]] 0) 0
        ≠ hGet [[("path", "/about")]] 0
    ∧ lookupO (hGet (assetsListMutate "mysite" "tok123" [[("path", "/about")]] 0) 0)
        "site" = some "mysite"
    ∧ lookupO (hGet (assetsListMutate "mysite" "tok123" [[("path", "/about")]] 0) 0)
        "path" = lookupO (hGet [[("path", "/about")]] 0) "path" := by
  obtain ⟨h1, h2, h3, _, h5, _⟩ :=
    endpoint_call_mutates_config "mysite" "tok123" [[("path", "/about")]] 0 (by decide)
  exact ⟨h1, h2 (by decide), h3 (by decide), h5 "path" (by decide) (by decide)⟩
